import Mathlib

/-!
Shallow embedding of the hr-heatmap core pipeline (`app/hr_ingest.py`,
`app/heatmap_render.py`, `app/pivot_builder.py`) and proofs about it.

Python floats are modelled as rationals (`ℚ`); `NaN` entries of the working
array are modelled as `Option ℚ` with `none` for `NaN`.
-/

set_option maxRecDepth 16384

namespace HrHeatmap

/-- A heart-rate sample after conversion of its absolute UTC timestamp to the
configured local timezone and truncation to the whole minute
(`app/hr_ingest.py`, `samples_to_local_minutes`, steps 1–2: `astimezone` then
`replace(second=0, microsecond=0)`).  A Python `datetime` always satisfies
`0 ≤ hour ≤ 23` and `0 ≤ minute ≤ 59`, which the `Fin` fields record; `hr` is
the integer heart-rate reading (`app/garmin_client.py`, `Sample.hr : int`). -/
structure Sample where
  hour : Fin 24
  minute : Fin 60
  hr : Int
deriving DecidableEq, Repr

/-- `minute_of_day = floored.hour * 60 + floored.minute`
(`app/hr_ingest.py` line 33). -/
def minute_of_day (s : Sample) : Nat :=
  s.hour.val * 60 + s.minute.val

/-- The value list stored under key `m` of the dict built by
`samples_to_local_minutes` (`app/hr_ingest.py` lines 23–40): the `hr` values
of all samples whose minute-of-day is `m`, in input order.  The dict has key
`m` exactly when this list is nonempty. -/
def samples_to_local_minutes (samples : List Sample) (m : Nat) : List Int :=
  (samples.filter (fun s => minute_of_day s = m)).map (fun s => s.hr)

/-- The keys of the dict built by `samples_to_local_minutes`
(with multiplicity; membership is what matters). -/
def minuteKeys (samples : List Sample) : List Nat :=
  samples.map minute_of_day

/-- Provisional per-minute value before interpolation: `np.mean(vals)` when
minute `m` has samples, `NaN` (here `none`) otherwise
(`app/hr_ingest.py` lines 55–62: `np.full(1440, np.nan)` then mean fill). -/
def minuteMean (samples : List Sample) (m : Nat) : Option ℚ :=
  let vs := samples_to_local_minutes samples m
  if vs.isEmpty then none
  else some ((vs.map (fun v : Int => (v : ℚ))).sum / (vs.length : ℚ))

/-- Largest index `j < i` with `arr j ≠ none`, if any (the nearest filled
minute before `i`; used to model pandas linear interpolation). -/
def prevFilled (arr : Nat → Option ℚ) : Nat → Option Nat
  | 0 => none
  | i + 1 => if (arr i).isSome then some i else prevFilled arr i

/-- Smallest index `k` with `j ≤ k < j + fuel` and `arr k ≠ none`, if any
(the nearest filled minute at or after `j`, scanning at most `fuel` slots). -/
def nextFilledFrom (arr : Nat → Option ℚ) : Nat → Nat → Option Nat
  | _, 0 => none
  | j, fuel + 1 => if (arr j).isSome then some j else nextFilledFrom arr (j + 1) fuel

/-- One slot of
`pd.Series(arr).interpolate(method="linear", limit=max_gap, limit_direction="both")`
(`app/hr_ingest.py` lines 66–76) on a 1440-slot series.

pandas semantics modelled here: candidate values are `np.interp` over the
filled positions — linear between the nearest filled neighbours, constant
(flat) beyond the first/last filled position — and the `limit` /
`limit_direction="both"` masking keeps a `NaN` slot filled only when it is
within `max_gap` slots of a filled position on at least one side (at most
`limit` consecutive `NaN`s are filled from each end of every `NaN` run). -/
def interpOne (arr : Nat → Option ℚ) (max_gap : Nat) (i : Nat) : Option ℚ :=
  match arr i with
  | some v => some v
  | none =>
    match prevFilled arr i, nextFilledFrom arr (i + 1) (1440 - (i + 1)) with
    | some p, some q =>
      if i - p ≤ max_gap ∨ q - i ≤ max_gap then
        match arr p, arr q with
        | some vp, some vq =>
          some (vp + (vq - vp) * ((i - p : Nat) : ℚ) / ((q - p : Nat) : ℚ))
        | _, _ => none
      else none
    | some p, none => if i - p ≤ max_gap then arr p else none
    | none, some q => if q - i ≤ max_gap then arr q else none
    | none, none => none

/-- `build_daily_minute_series` (`app/hr_ingest.py` lines 43–82): the
1440-slot Day Vector — per-minute means, pandas bounded linear interpolation,
then `np.nan_to_num(·, nan=0.0)` replacing every remaining `NaN` by the
sentinel `0`. -/
def build_daily_minute_series (samples : List Sample) (max_gap : Nat) : List ℚ :=
  (List.range 1440).map (fun i => (interpOne (minuteMean samples) max_gap i).getD 0)

/-! ## Day Table Builder (`app/hr_ingest.py`, `build_daily_table`) -/

/-- The samples stored for date `d` in the input mapping (Python
`daily_data[d]`; dates are modelled by their ordinals as natural numbers). -/
def lookupSamples (daily : List (Nat × List Sample)) (d : Nat) : List Sample :=
  match daily.lookup d with
  | some ss => ss
  | none => []

/-- `build_daily_table` (`app/hr_ingest.py` lines 85–108): sort the dates
ascending, run the Minute Aggregator with `max_gap=10` on each date's samples,
and stack the resulting Day Vectors as columns of a `1440 × N` matrix
(`np.column_stack`; an empty mapping yields `np.zeros((1440, 0))`, i.e. 1440
empty rows).  The matrix is represented row-major: entry `(r, c)` of the
NumPy array is `(matrix.get r).get c`. -/
def build_daily_table (daily : List (Nat × List Sample)) :
    List (List ℚ) × List Nat :=
  let sorted_dates := (daily.map Prod.fst).mergeSort
  let cols := sorted_dates.map (fun d => build_daily_minute_series (lookupSamples daily d) 10)
  ((List.range 1440).map (fun r => cols.map (fun col => col.getD r 0)), sorted_dates)

/-! ## Color Scale Resolver (`app/heatmap_render.py`, `calculate_color_scale`) -/

/-- `_prepare_data_for_color` followed by `data[np.isfinite(data)]`
(`app/heatmap_render.py` lines 63–73 and 86–87): the finite entries of the
matrix that survive the "`≤ 0` is missing" rule, flattened.  Rational entries
are always finite, so only the `≤ 0` filter remains. -/
def finiteValues (matrix : List (List ℚ)) : List ℚ :=
  matrix.flatten.filter (fun v => 0 < v)

/-- Linear interpolation of a list at the virtual (fractional) index `h`,
as NumPy's percentile interpolation does: value
`s[⌊h⌋] + (h − ⌊h⌋)·(s[⌊h⌋+1] − s[⌊h⌋])` (the neighbour defaulting to the
lower order statistic at the upper edge). -/
def interpAt (s : List ℚ) (h : ℚ) : ℚ :=
  let k : Nat := ⌊h⌋.toNat
  let lo := s.getD k 0
  let hi := s.getD (k + 1) lo
  lo + (h - (k : ℚ)) * (hi - lo)

/-- `np.nanpercentile(xs, p)` with the default linear interpolation method:
sort, take the virtual index `h = (p/100)·(n−1)`, and interpolate linearly
between the neighbouring order statistics. -/
def percentile (xs : List ℚ) (p : ℚ) : ℚ :=
  let s := xs.mergeSort
  interpAt s (p / 100 * ((s.length : ℚ) - 1))

/-- `np.nanmin` over a nonempty list (default `0` for the empty list, which
`calculate_color_scale` never reaches). -/
def listMin : List ℚ → ℚ
  | [] => 0
  | x :: xs => xs.foldl min x

/-- `np.nanmax` over a nonempty list (default `0`, unreachable as above). -/
def listMax : List ℚ → ℚ
  | [] => 0
  | x :: xs => xs.foldl max x

/-- `calculate_color_scale` (`app/heatmap_render.py` lines 76–109).
`hrMin` / `hrMax` model `settings.hr_min` / `settings.hr_max` (`None` when the
override is not configured).  Order matters and is kept from the source: the
empty-data default `(0, 1)` is checked *before* the explicit override; in the
rational model percentiles are always finite, so the degenerate check
`not isfinite(vmin) or not isfinite(vmax) or vmin == vmax` reduces to
`vmin == vmax`. -/
def calculate_color_scale (hrMin hrMax : Option ℚ) (matrix : List (List ℚ)) :
    ℚ × ℚ :=
  let finite := finiteValues matrix
  if finite.length = 0 then (0, 1)
  else
    match hrMin, hrMax with
    | some lo, some hi => (lo, hi)
    | _, _ =>
      let vmin := percentile finite 1
      let vmax := percentile finite 99
      if vmin = vmax then
        let vmin' := listMin finite
        let vmax' := listMax finite
        if vmin' = vmax' then (vmin' - 1, vmax' + 1) else (vmin', vmax')
      else (vmin, vmax)

/-! ## Rasterizer (`app/heatmap_render.py`, `render_heatmap_image`) -/

/-- Python's built-in `round` (banker's rounding, half to even) on an exact
rational.  `h * H / 24` has denominator dividing 24, so the float division in
the source is fully faithful to the rational value at every tie and far from
every tie otherwise. -/
def pyRound (q : ℚ) : ℤ :=
  let f := ⌊q⌋
  let r := q - (f : ℚ)
  if r < 1 / 2 then f
  else if 1 / 2 < r then f + 1
  else if f % 2 = 0 then f else f + 1

/-- The 25 hour-line row positions `round(h * H / 24)` for `h = 0, …, 24`
(`app/heatmap_render.py` lines 170–171). -/
def hourLineRows (H : Nat) : List ℤ :=
  (List.range 25).map (fun h : Nat => pyRound ((h : ℚ) * (H : ℚ) / 24))

/-- Rendering configuration (`app/config.py`: `image_width`, `image_height`,
`draw_hour_lines`, `draw_day_lines`). -/
structure RenderConfig where
  image_width : Nat
  image_height : Nat
  draw_hour_lines : Bool
  draw_day_lines : Bool
deriving Repr, DecidableEq

/-- The observable layout of the rendered image needed by the claims: its
pixel dimensions and the rows / columns that actually receive separator
lines.  `PIL.ImageDraw.line` clips to the canvas, so a computed position
outside `[0, H)` (resp. `[0, W)`) draws nothing. -/
structure HeatmapImage where
  width : Nat
  height : Nat
  hourLineYs : List ℤ
  dayLineXs : List ℤ
deriving Repr, DecidableEq

/-- `render_heatmap_image` (`app/heatmap_render.py` lines 112–182), modelled
up to the pixel colors: the shape guard
`if matrix.shape[0] != 1440: raise ValueError(...)` and the separator-line
overlay.  Rows drawn on the canvas are the computed positions that fall
inside the image (PIL clipping). -/
def render_heatmap_image (cfg : RenderConfig) (matrix : List (List ℚ)) :
    Except String HeatmapImage :=
  if matrix.length ≠ 1440 then
    Except.error ("Expected 1440 rows for minutes, got " ++ toString matrix.length)
  else
    let H := cfg.image_height
    let W := cfg.image_width
    let n_days := (matrix.headD []).length
    Except.ok
      { width := W
        height := H
        hourLineYs :=
          if cfg.draw_hour_lines then
            (hourLineRows H).filter (fun y => 0 ≤ y ∧ y < (H : ℤ))
          else []
        dayLineXs :=
          if cfg.draw_day_lines ∧ 1 < n_days then
            ((List.range (n_days - 1)).map
              (fun i => pyRound (((i + 1 : Nat) : ℚ) * (W : ℚ) / (n_days : ℚ)))).filter
              (fun x => 0 ≤ x ∧ x < (W : ℤ))
          else [] }

/-! ## Pivot CSV (`app/pivot_builder.py`) -/

/-- One CSV cell: a label written as text, or a numeric matrix entry.  Python
writes a float cell via `str` and `load_pivot` re-reads it via `float`; this
`str`/`float` round trip is exact for every float (`repr` guarantee), so the
embedding keeps the numeric value in the cell. -/
inductive Cell where
  | str (s : String)
  | num (q : ℚ)
deriving Repr, DecidableEq

/-- Left-pad to two digits: Python's `f"{n:02d}"` for `0 ≤ n < 100`. -/
def pad2 (n : Nat) : String :=
  if n < 10 then "0" ++ toString n else toString n

/-- The row label `f"{hh:02d}:{mm:02d}"` for a minute of day. -/
def timeLabel (minute : Nat) : String :=
  pad2 (minute / 60) ++ ":" ++ pad2 (minute % 60)

/-- `write_pivot_csv` (`app/pivot_builder.py` lines 36–57): the header row
`["time_local"] + [d.isoformat() for d in dates]` followed by 1440 data rows
`[HH:MM] + list(matrix[minute, :])`.  Dates enter as their ISO label
strings. -/
def write_pivot_csv (matrix : List (List ℚ)) (dates : List String) :
    List (List Cell) :=
  (Cell.str "time_local" :: dates.map Cell.str) ::
    (List.range 1440).map (fun minute =>
      Cell.str (timeLabel minute) :: (matrix.getD minute []).map Cell.num)

/-- `float(x)` applied to a written numeric cell (exact by the `repr` round
trip; a text cell would raise in Python and is given an arbitrary default
here, unreachable on `write_pivot_csv` output). -/
def cellToFloat : Cell → ℚ
  | Cell.num q => q
  | Cell.str _ => 0

/-- The text of a header cell as `csv.reader` returns it. -/
def cellToStr : Cell → String
  | Cell.str s => s
  | Cell.num _ => ""

/-- `load_pivot` (`app/pivot_builder.py` lines 60–70): drop the header row,
drop the `time_local` column, parse the remaining cells as floats; the date
labels are the header row minus its first cell. -/
def load_pivot (rows : List (List Cell)) : List (List ℚ) × List String :=
  ((rows.drop 1).map (fun row => (row.drop 1).map cellToFloat),
   ((rows.headD []).drop 1).map cellToStr)

/-! ## Supporting lemmas -/

/-- Indexing into a `List.range`-indexed table: slot `i < n` of
`(List.range n).map f` is `f i`. -/
theorem range_map_getD {α : Type} (f : Nat → α) {i n : Nat} (hi : i < n) (d : α) :
    ((List.range n).map f).getD i d = f i := by
  rw [List.getD_eq_getElem?_getD, List.getElem?_map, List.getElem?_range hi]
  rfl

/-- Reading every slot of a list back by index reproduces the list. -/
theorem range_map_getD_self {α : Type} (l : List α) (d : α) :
    (List.range l.length).map (fun i => l.getD i d) = l := by
  apply List.ext_getElem
  · simp
  · intro i h1 h2
    simp only [List.getElem_map, List.getElem_range, List.getD_eq_getElem?_getD,
      List.getElem?_eq_getElem h2, Option.getD_some]

/-- Every minute-of-day key is below 1440. -/
theorem minute_of_day_lt (s : Sample) : minute_of_day s < 1440 := by
  have h1 := s.hour.isLt
  have h2 := s.minute.isLt
  unfold minute_of_day
  omega

/-- If every slot below `i` is empty, there is no filled slot before `i`. -/
theorem prevFilled_eq_none (arr : Nat → Option ℚ) (i : Nat)
    (h : ∀ j, j < i → arr j = none) : prevFilled arr i = none := by
  induction i with
  | zero => rfl
  | succ n ih =>
    have hn := h n (Nat.lt_succ_self n)
    simp only [prevFilled, hn, Option.isSome_none, Bool.false_eq_true, if_false]
    exact ih fun j hj => h j (Nat.lt_succ_of_lt hj)

/-- If `p` is filled and everything strictly between `p` and `i` is empty,
then `p` is the nearest filled slot before `i`. -/
theorem prevFilled_eq_some (arr : Nat → Option ℚ) (p i : Nat)
    (hp : (arr p).isSome = true) (hpi : p < i)
    (h : ∀ j, p < j → j < i → arr j = none) : prevFilled arr i = some p := by
  induction i with
  | zero => omega
  | succ n ih =>
    by_cases hpn : p = n
    · subst hpn
      simp only [prevFilled, hp, if_true]
    · have hn : arr n = none := h n (by omega) (Nat.lt_succ_self n)
      simp only [prevFilled, hn, Option.isSome_none, Bool.false_eq_true, if_false]
      exact ih (by omega) fun j h1 h2 => h j h1 (by omega)

/-- If every slot in the scanned window is empty, the forward scan finds
nothing. -/
theorem nextFilledFrom_eq_none (arr : Nat → Option ℚ) (fuel : Nat) : ∀ (j : Nat),
    (∀ k, j ≤ k → k < j + fuel → arr k = none) →
    nextFilledFrom arr j fuel = none := by
  induction fuel with
  | zero => intro j _; rfl
  | succ n ih =>
    intro j h
    have hj : arr j = none := h j (le_refl j) (by omega)
    simp only [nextFilledFrom, hj, Option.isSome_none, Bool.false_eq_true, if_false]
    exact ih (j + 1) fun k h1 h2 => h k (by omega) (by omega)

/-- If `q` is filled, lies in the scanned window, and everything from `j` up
to `q` is empty, the forward scan finds exactly `q`. -/
theorem nextFilledFrom_eq_some (arr : Nat → Option ℚ) (fuel : Nat) : ∀ (j q : Nat),
    j ≤ q → q < j + fuel → (arr q).isSome = true →
    (∀ k, j ≤ k → k < q → arr k = none) →
    nextFilledFrom arr j fuel = some q := by
  induction fuel with
  | zero => intro j q h1 h2 _ _; omega
  | succ n ih =>
    intro j q hjq hq hsome h
    by_cases hjq' : j = q
    · subst hjq'
      simp only [nextFilledFrom, hsome, if_true]
    · have hj : arr j = none := h j (le_refl j) (by omega)
      simp only [nextFilledFrom, hj, Option.isSome_none, Bool.false_eq_true, if_false]
      exact ih (j + 1) q (by omega) (by omega) hsome fun k h1 h2 => h k (by omega) h2

/-- Slot `i < 1440` of the Day Vector is the interpolated slot value with the
`NaN → 0` replacement applied. -/
theorem build_getD (samples : List Sample) (L i : Nat) (hi : i < 1440) :
    (build_daily_minute_series samples L).getD i 0 =
      (interpOne (minuteMean samples) L i).getD 0 := by
  unfold build_daily_minute_series
  exact range_map_getD _ hi 0

/-- Interpolation of one slot of an interior empty run `[a, b]` bounded by
filled slots `a − 1` (value `vl`) and `b + 1` (value `vr`): the slot gets the
linear-interpolation value when it is within `max_gap` of either end of the
run, and stays `NaN` otherwise. -/
theorem interpOne_interior (arr : Nat → Option ℚ) (L a b : Nat) (vl vr : ℚ)
    (ha : 1 ≤ a) (hb : b + 1 ≤ 1439)
    (hvl : arr (a - 1) = some vl) (hvr : arr (b + 1) = some vr)
    (hrun : ∀ j, a ≤ j → j ≤ b → arr j = none)
    (i : Nat) (hai : a ≤ i) (hib : i ≤ b) :
    interpOne arr L i =
      if i - (a - 1) ≤ L ∨ b + 1 - i ≤ L then
        some (vl + (vr - vl) * ((i - (a - 1) : Nat) : ℚ) / (((b + 1) - (a - 1) : Nat) : ℚ))
      else none := by
  have hi : arr i = none := hrun i hai hib
  have hprev : prevFilled arr i = some (a - 1) := by
    apply prevFilled_eq_some
    · rw [hvl]; rfl
    · omega
    · intro j h1 h2
      exact hrun j (by omega) (by omega)
  have hnext : nextFilledFrom arr (i + 1) (1440 - (i + 1)) = some (b + 1) := by
    apply nextFilledFrom_eq_some
    · omega
    · omega
    · rw [hvr]; rfl
    · intro k h1 h2
      exact hrun k (by omega) (by omega)
  simp only [interpOne, hi, hprev, hnext, hvl, hvr]

/-- Interpolation of one slot of a leading empty run `[0, b]` with first
filled slot `b + 1` (value `vr`): within `max_gap` of the filled slot the
backward fill assigns the flat `np.interp` boundary value `vr`. -/
theorem interpOne_leading (arr : Nat → Option ℚ) (L b : Nat) (vr : ℚ)
    (hb : b + 1 ≤ 1439) (hvr : arr (b + 1) = some vr)
    (hrun : ∀ j, j ≤ b → arr j = none)
    (i : Nat) (hib : i ≤ b) :
    interpOne arr L i = if b + 1 - i ≤ L then some vr else none := by
  have hi : arr i = none := hrun i hib
  have hprev : prevFilled arr i = none :=
    prevFilled_eq_none arr i fun j hj => hrun j (by omega)
  have hnext : nextFilledFrom arr (i + 1) (1440 - (i + 1)) = some (b + 1) := by
    apply nextFilledFrom_eq_some
    · omega
    · omega
    · rw [hvr]; rfl
    · intro k h1 h2
      exact hrun k (by omega)
  simp only [interpOne, hi, hprev, hnext, hvr]

/-- Interpolation of one slot of a trailing empty run `[a, 1439]` with last
filled slot `a − 1` (value `vl`): within `max_gap` of the filled slot the
forward fill assigns the flat `np.interp` boundary value `vl`. -/
theorem interpOne_trailing (arr : Nat → Option ℚ) (L a : Nat) (vl : ℚ)
    (ha : 1 ≤ a) (hvl : arr (a - 1) = some vl)
    (hrun : ∀ j, a ≤ j → j ≤ 1439 → arr j = none)
    (i : Nat) (hai : a ≤ i) (hi : i ≤ 1439) :
    interpOne arr L i = if i - (a - 1) ≤ L then some vl else none := by
  have hie : arr i = none := hrun i hai hi
  have hprev : prevFilled arr i = some (a - 1) := by
    apply prevFilled_eq_some
    · rw [hvl]; rfl
    · omega
    · intro j h1 h2
      exact hrun j (by omega) (by omega)
  have hnext : nextFilledFrom arr (i + 1) (1440 - (i + 1)) = none := by
    apply nextFilledFrom_eq_none
    intro k h1 h2
    exact hrun k (by omega) (by omega)
  simp only [interpOne, hie, hprev, hnext, hvl]

/-! ## Claim theorems (first batch) -/

/-- Claim C2: for every input sample list and maximum gap, the Day Vector
produced by `build_daily_minute_series` has length exactly 1440. -/
theorem build_daily_minute_series_length (samples : List Sample) (max_gap : Nat) :
    (build_daily_minute_series samples max_gap).length = 1440 := by
  simp [build_daily_minute_series]

/-- Claim C10: every minute-of-day key produced by
`samples_to_local_minutes` (every key of the dict, i.e. every `m` whose value
list is nonempty) lies below 1440, so the write `arr[minute] = mean(vals)`
into the 1440-slot array is always in bounds. -/
theorem minute_keys_lt_1440 (samples : List Sample) (m : Nat)
    (h : samples_to_local_minutes samples m ≠ []) : m < 1440 := by
  by_contra hm
  apply h
  unfold samples_to_local_minutes
  rw [List.map_eq_nil_iff, List.filter_eq_nil_iff]
  intro s _ hs
  have := minute_of_day_lt s
  have : m < 1440 := by
    simp only [decide_eq_true_eq] at hs
    omega
  exact hm this

/-- Witness for C10 at a concrete sample (01:40, hr 70 → key 100). -/
theorem minute_keys_lt_1440_witness :
    samples_to_local_minutes [⟨1, 40, 70⟩] 100 ≠ [] ∧ 100 < 1440 :=
  ⟨by decide, minute_keys_lt_1440 [⟨1, 40, 70⟩] 100 (by decide)⟩

/-- Claim C6: `render_heatmap_image` fails (raises `ValueError`, surfaced to
the caller, with no image produced) exactly when the matrix's row count
differs from 1440; with exactly 1440 rows the shape check passes. -/
theorem render_error_iff_rows (cfg : RenderConfig) (matrix : List (List ℚ)) :
    (∃ msg, render_heatmap_image cfg matrix = Except.error msg) ↔
      matrix.length ≠ 1440 := by
  unfold render_heatmap_image
  by_cases h : matrix.length = 1440 <;> simp [h]

/-- Claim C9: writing a Day Table to the pivot CSV and reading it back
reproduces the matrix exactly (hence within floating-point tolerance) and the
date labels in their original order. -/
theorem pivot_round_trip (matrix : List (List ℚ)) (dates : List String)
    (hm : matrix.length = 1440) :
    load_pivot (write_pivot_csv matrix dates) = (matrix, dates) := by
  unfold load_pivot write_pivot_csv
  simp only [List.drop_succ_cons, List.drop_zero, List.headD_cons, List.map_map]
  rw [Prod.mk.injEq]
  constructor
  · have : (fun row => (List.drop 1 row).map cellToFloat) ∘
        (fun minute => Cell.str (timeLabel minute) :: (matrix.getD minute []).map Cell.num) =
        fun minute => matrix.getD minute [] := by
      funext minute
      simp only [Function.comp_apply, List.drop_succ_cons, List.drop_zero, List.map_map]
      have : cellToFloat ∘ Cell.num = id := by
        funext q
        rfl
      rw [this, List.map_id]
    rw [this]
    rw [← hm, range_map_getD_self]
  · have : cellToStr ∘ Cell.str = id := by
      funext s
      rfl
    rw [this, List.map_id]

/-- Witness for C9 on a concrete 1440-row table with one date label. -/
theorem pivot_round_trip_witness :
    (List.replicate 1440 ([] : List ℚ)).length = 1440 ∧
      load_pivot (write_pivot_csv (List.replicate 1440 ([] : List ℚ)) ["2024-01-01"]) =
        (List.replicate 1440 ([] : List ℚ), ["2024-01-01"]) :=
  ⟨by rw [List.length_replicate], pivot_round_trip _ _ (by rw [List.length_replicate])⟩

/-- Claim C4 counterexample: with both overrides configured (`hr_min = 40`,
`hr_max = 180`) but a matrix with no finite positive value, the code returns
the degenerate default `(0, 1)` — the empty-data check precedes the override
check — so the override pair is *not* returned for every matrix. -/
theorem override_after_empty_check_cex :
    calculate_color_scale (some 40) (some 180) [[0]] = (0, 1) ∧
      ((0 : ℚ), (1 : ℚ)) ≠ ((40 : ℚ), (180 : ℚ)) := by
  constructor
  · rfl
  · decide

/-- Claim C4 (amended): whenever both fixed overrides are configured *and the
matrix has at least one finite positive value*, the Color Scale Resolver
returns exactly the configured pair; a matrix with no finite positive values
instead yields the default `(0, 1)`. -/
theorem override_wins_on_nonempty (lo hi : ℚ) (matrix : List (List ℚ))
    (h : finiteValues matrix ≠ []) :
    calculate_color_scale (some lo) (some hi) matrix = (lo, hi) := by
  have hne : ¬((finiteValues matrix).length = 0) := by
    simpa [List.length_eq_zero] using h
  simp [calculate_color_scale, hne]

/-- Witness for the amended C4 on a concrete one-entry matrix. -/
theorem override_wins_on_nonempty_witness :
    finiteValues [[(50 : ℚ)]] ≠ [] ∧
      calculate_color_scale (some 40) (some 180) [[(50 : ℚ)]] = (40, 180) :=
  ⟨by decide, override_wins_on_nonempty 40 180 [[(50 : ℚ)]] (by decide)⟩

/-! ## Hour-line geometry (claim C7) -/

/-- Python `round` of an exact integer value is that integer. -/
theorem pyRound_natCast (n : Nat) : pyRound (n : ℚ) = (n : ℤ) := by
  unfold pyRound
  rw [Int.floor_natCast]
  norm_num

/-- `hourLineRows` always lists 25 candidate positions. -/
theorem hourLineRows_length (H : Nat) : (hourLineRows H).length = 25 := by
  simp [hourLineRows]

/-- The `h`-th candidate hour-line row is `round(h·H/24)`. -/
theorem hourLineRows_getD (H h : Nat) (hh : h < 25) :
    (hourLineRows H).getD h 0 = pyRound ((h : ℚ) * (H : ℚ) / 24) := by
  unfold hourLineRows
  exact range_map_getD _ hh 0

/-- The first candidate hour-line row is row 0. -/
theorem hourLineRows_first (H : Nat) : (hourLineRows H).getD 0 0 = 0 := by
  rw [hourLineRows_getD H 0 (by norm_num)]
  have h0 : ((0 : Nat) : ℚ) * (H : ℚ) / 24 = ((0 : Nat) : ℚ) := by norm_num
  rw [h0, pyRound_natCast]
  rfl

/-- The last (h = 24) candidate hour-line row is exactly `H`. -/
theorem hourLineRows_top (H : Nat) : (hourLineRows H).getD 24 0 = (H : ℤ) := by
  rw [hourLineRows_getD H 24 (by norm_num)]
  have h24 : ((24 : Nat) : ℚ) * (H : ℚ) / 24 = ((H : Nat) : ℚ) := by
    push_cast
    ring
  rw [h24, pyRound_natCast]

/-- Row 0 is among the candidate rows. -/
theorem zero_mem_hourLineRows (H : Nat) : (0 : ℤ) ∈ hourLineRows H := by
  unfold hourLineRows
  refine List.mem_map.mpr ⟨0, List.mem_range.mpr (by norm_num), ?_⟩
  have h0 : ((0 : Nat) : ℚ) * (H : ℚ) / 24 = ((0 : Nat) : ℚ) := by norm_num
  rw [h0, pyRound_natCast]
  rfl

/-- Claim C7 counterexample: at the default output height `H = 1440` (the
spec's own §8 example) with hour lines enabled, the rendered image carries
only 24 hour lines and the bottom-edge row 1439 is not among them: the 25th
candidate position `round(24·1440/24) = 1440` lies one past the final row and
is clipped away by the drawing canvas. -/
theorem hour_lines_bottom_row_cex :
    ∃ img, render_heatmap_image ⟨920, 1440, true, true⟩
        (List.replicate 1440 ([] : List ℚ)) = Except.ok img ∧
      img.hourLineYs.length = 24 ∧ (1439 : ℤ) ∉ img.hourLineYs := by
  unfold render_heatmap_image
  rw [if_neg (by rw [List.length_replicate]; norm_num)]
  refine ⟨_, rfl, ?_, ?_⟩ <;> with_unfolding_all decide

/-- Claim C7 (amended): with hour lines enabled and a 1440-row matrix the
Rasterizer succeeds and computes 25 evenly spaced candidate rows
`round(h·H/24)` for `h = 0, …, 24`; the drawn rows are the candidates inside
the image, row 0 is drawn, every drawn row lies strictly below `H`, and the
25th candidate equals `H` itself — one past the bottom-edge row `H − 1` — so
it is clipped and at most 24 separator lines are visible. -/
theorem hour_lines_positions (cfg : RenderConfig) (matrix : List (List ℚ))
    (hm : matrix.length = 1440) (hdraw : cfg.draw_hour_lines = true)
    (hH : 1 ≤ cfg.image_height) :
    ∃ img, render_heatmap_image cfg matrix = Except.ok img ∧
      img.hourLineYs = (hourLineRows cfg.image_height).filter
        (fun y => 0 ≤ y ∧ y < (cfg.image_height : ℤ)) ∧
      (hourLineRows cfg.image_height).length = 25 ∧
      (∀ h, h < 25 → (hourLineRows cfg.image_height).getD h 0 =
        pyRound ((h : ℚ) * (cfg.image_height : ℚ) / 24)) ∧
      (hourLineRows cfg.image_height).getD 0 0 = 0 ∧
      (hourLineRows cfg.image_height).getD 24 0 = (cfg.image_height : ℤ) ∧
      (0 : ℤ) ∈ img.hourLineYs ∧
      (∀ y ∈ img.hourLineYs, y < (cfg.image_height : ℤ)) := by
  unfold render_heatmap_image
  rw [if_neg (by simp [hm])]
  refine ⟨_, rfl, ?_, hourLineRows_length _, fun h hh => hourLineRows_getD _ h hh,
    hourLineRows_first _, hourLineRows_top _, ?_, ?_⟩
  · simp [hdraw]
  · simp only [hdraw, if_pos]
    refine List.mem_filter.mpr ⟨zero_mem_hourLineRows _, ?_⟩
    have : (0 : ℤ) < (cfg.image_height : ℤ) := by exact_mod_cast hH
    simp [this]
  · intro y hy
    simp only [hdraw, if_pos] at hy
    have := (List.mem_filter.mp hy).2
    simp only [decide_eq_true_eq] at this
    exact this.2

/-! ## Color-scale range (claim C5) -/

/-- `getD` at an in-range index does not depend on the default. -/
theorem getD_in_range (s : List ℚ) (i : Nat) (hi : i < s.length) (d d' : ℚ) :
    s.getD i d = s.getD i d' := by
  rw [List.getD_eq_getElem?_getD, List.getD_eq_getElem?_getD,
    List.getElem?_eq_getElem hi]
  rfl

/-- In a sorted list, values are monotone in the index (via `getD`). -/
theorem sorted_getD_le (s : List ℚ) (hs : List.Sorted (fun a b => a ≤ b) s)
    (i j : Nat) (hij : i ≤ j) (hj : j < s.length) :
    s.getD i 0 ≤ s.getD j 0 := by
  rcases Nat.eq_or_lt_of_le hij with heq | hlt
  · subst heq
    exact le_refl _
  · have hi : i < s.length := lt_trans hlt hj
    rw [List.getD_eq_getElem?_getD, List.getD_eq_getElem?_getD,
      List.getElem?_eq_getElem hi, List.getElem?_eq_getElem hj]
    exact List.Sorted.rel_get_of_lt hs hlt

/-- Linear interpolation at a virtual index is monotone on a sorted list
(away from the top index). -/
theorem interpAt_mono (s : List ℚ) (hs : List.Sorted (fun a b => a ≤ b) s)
    {h1 h2 : ℚ} (h0 : 0 ≤ h1) (h12 : h1 ≤ h2)
    (hub : h2 < (s.length : ℚ) - 1) :
    interpAt s h1 ≤ interpAt s h2 := by
  have h02 : 0 ≤ h2 := le_trans h0 h12
  have hf1nn : 0 ≤ ⌊h1⌋ := Int.floor_nonneg.mpr h0
  have hf2nn : 0 ≤ ⌊h2⌋ := Int.floor_nonneg.mpr h02
  set k1 : Nat := ⌊h1⌋.toNat with hk1
  set k2 : Nat := ⌊h2⌋.toNat with hk2
  have hc1 : (k1 : ℚ) = (⌊h1⌋ : ℚ) := by
    rw [hk1]
    exact_mod_cast congrArg (fun z : ℤ => (z : ℚ)) (Int.toNat_of_nonneg hf1nn)
  have hc2 : (k2 : ℚ) = (⌊h2⌋ : ℚ) := by
    rw [hk2]
    exact_mod_cast congrArg (fun z : ℤ => (z : ℚ)) (Int.toNat_of_nonneg hf2nn)
  have hlo1 : (k1 : ℚ) ≤ h1 := by rw [hc1]; exact Int.floor_le h1
  have hhi1 : h1 < (k1 : ℚ) + 1 := by rw [hc1]; exact Int.lt_floor_add_one h1
  have hlo2 : (k2 : ℚ) ≤ h2 := by rw [hc2]; exact Int.floor_le h2
  have hk12 : k1 ≤ k2 := by
    have := Int.floor_mono h12
    omega
  -- the upper virtual index stays below the last list index
  have hk2n : k2 + 1 < s.length := by
    have hfl : (⌊h2⌋ : ℚ) ≤ h2 := Int.floor_le h2
    have : (⌊h2⌋ : ℚ) < (s.length : ℚ) - 1 := lt_of_le_of_lt hfl hub
    have hz : ⌊h2⌋ < (s.length : ℤ) - 1 := by exact_mod_cast this
    omega
  have hk1n : k1 + 1 < s.length := by omega
  -- the four order statistics involved
  have hdef1 : s.getD (k1 + 1) (s.getD k1 0) = s.getD (k1 + 1) 0 :=
    getD_in_range s (k1 + 1) hk1n _ _
  have hdef2 : s.getD (k2 + 1) (s.getD k2 0) = s.getD (k2 + 1) 0 :=
    getD_in_range s (k2 + 1) hk2n _ _
  have hadj1 : s.getD k1 0 ≤ s.getD (k1 + 1) 0 :=
    sorted_getD_le s hs k1 (k1 + 1) (by omega) hk1n
  have hadj2 : s.getD k2 0 ≤ s.getD (k2 + 1) 0 :=
    sorted_getD_le s hs k2 (k2 + 1) (by omega) hk2n
  simp only [interpAt]
  rw [← hk1, ← hk2, hdef1, hdef2]
  rcases Nat.eq_or_lt_of_le hk12 with heq | hlt
  · rw [heq]
    nlinarith [hadj2, sub_nonneg.mpr h12]
  · have hcross : s.getD (k1 + 1) 0 ≤ s.getD k2 0 :=
      sorted_getD_le s hs (k1 + 1) k2 (by omega) (by omega)
    have hleft : s.getD k1 0 + (h1 - (k1 : ℚ)) * (s.getD (k1 + 1) 0 - s.getD k1 0) ≤
        s.getD (k1 + 1) 0 := by
      nlinarith [hadj1, hhi1, hlo1]
    have hright : s.getD k2 0 ≤
        s.getD k2 0 + (h2 - (k2 : ℚ)) * (s.getD (k2 + 1) 0 - s.getD k2 0) := by
      nlinarith [hadj2, hlo2]
    linarith

/-- The 1st percentile never exceeds the 99th percentile. -/
theorem percentile_one_le_ninetynine (xs : List ℚ) (hne : xs ≠ []) :
    percentile xs 1 ≤ percentile xs 99 := by
  simp only [percentile]
  have hsorted : List.Sorted (fun a b => a ≤ b) xs.mergeSort :=
    List.sorted_mergeSort' xs
  have hlen : xs.mergeSort.length = xs.length := List.length_mergeSort xs
  have hpos : 1 ≤ xs.length := List.length_pos.mpr hne
  rcases Nat.eq_or_lt_of_le hpos with h1 | h2
  · -- single element: the virtual index is 0 for every percentile
    have hl : xs.mergeSort.length = 1 := by omega
    rw [hl]
    norm_num
  · have hl2 : 2 ≤ xs.mergeSort.length := by omega
    have hq2 : (2 : ℚ) ≤ (xs.mergeSort.length : ℚ) := by exact_mod_cast hl2
    apply interpAt_mono _ hsorted
    · nlinarith
    · nlinarith
    · nlinarith

/-- Lower bound of a left fold by `min`. -/
theorem foldl_min_le (l : List ℚ) : ∀ (x : ℚ), l.foldl min x ≤ x := by
  induction l with
  | nil => intro x; exact le_refl x
  | cons a t ih =>
    intro x
    calc (a :: t).foldl min x = t.foldl min (min x a) := rfl
    _ ≤ min x a := ih (min x a)
    _ ≤ x := min_le_left x a

/-- Upper bound of a left fold by `max`. -/
theorem le_foldl_max (l : List ℚ) : ∀ (x : ℚ), x ≤ l.foldl max x := by
  induction l with
  | nil => intro x; exact le_refl x
  | cons a t ih =>
    intro x
    calc x ≤ max x a := le_max_left x a
    _ ≤ t.foldl max (max x a) := ih (max x a)
    _ = (a :: t).foldl max x := rfl

/-- `np.nanmin ≤ np.nanmax` on a nonempty value list. -/
theorem listMin_le_listMax (l : List ℚ) (h : l ≠ []) : listMin l ≤ listMax l := by
  match l, h with
  | x :: t, _ =>
    calc listMin (x :: t) = t.foldl min x := rfl
    _ ≤ x := foldl_min_le t x
    _ ≤ t.foldl max x := le_foldl_max t x
    _ = listMax (x :: t) := rfl

/-- Claim C5: for every input matrix, with no fixed override configured the
Color Scale Resolver returns a pair with `low < high` strictly (both values
are rationals, hence finite): the empty-data default is `(0, 1)`, distinct
percentiles are ordered, and the flat-data fallback path widens to
`min − 1 < max + 1`. -/
theorem color_scale_low_lt_high (matrix : List (List ℚ)) :
    (calculate_color_scale none none matrix).1 <
      (calculate_color_scale none none matrix).2 := by
  by_cases h0 : (finiteValues matrix).length = 0
  · simp only [calculate_color_scale, h0]
    norm_num
  · have hne : finiteValues matrix ≠ [] := by
      intro hcontra
      rw [hcontra] at h0
      exact h0 rfl
    have hmono := percentile_one_le_ninetynine (finiteValues matrix) hne
    have hlem := listMin_le_listMax (finiteValues matrix) hne
    by_cases heq :
        percentile (finiteValues matrix) 1 = percentile (finiteValues matrix) 99
    · by_cases hmm : listMin (finiteValues matrix) = listMax (finiteValues matrix)
      · simp only [calculate_color_scale, h0, heq, hmm, if_true, if_false]
        linarith
      · simp only [calculate_color_scale, h0, heq, hmm, if_true, if_false]
        exact lt_of_le_of_ne hlem hmm
    · simp only [calculate_color_scale, h0, heq, if_true, if_false]
      exact lt_of_le_of_ne hmono heq

/-! ## Day Table shape and contents (claim C3) -/

/-- `getD` through a `map` at an in-range index. -/
theorem getD_map {α β : Type} (f : α → β) (l : List α) (c : Nat)
    (hc : c < l.length) (d : β) (d' : α) :
    (l.map f).getD c d = f (l.getD c d') := by
  rw [List.getD_eq_getElem?_getD, List.getD_eq_getElem?_getD, List.getElem?_map,
    List.getElem?_eq_getElem hc]
  rfl

/-- The minute map of a day with no samples is empty everywhere. -/
theorem minuteMean_nil (m : Nat) : minuteMean [] m = none := rfl

/-- A day with zero samples yields the all-zero Day Vector. -/
theorem build_nil_getD (L r : Nat) (hr : r < 1440) :
    (build_daily_minute_series [] L).getD r 0 = 0 := by
  rw [build_getD [] L r hr]
  have h1 : prevFilled (minuteMean []) r = none :=
    prevFilled_eq_none _ _ fun j _ => rfl
  have h2 : nextFilledFrom (minuteMean []) (r + 1) (1440 - (r + 1)) = none :=
    nextFilledFrom_eq_none _ _ _ fun k _ _ => rfl
  simp only [interpOne, minuteMean_nil, h1, h2]
  rfl

/-- Claim C3: for a mapping with distinct dates, `build_daily_table` returns
a matrix with exactly 1440 rows, each row of width `N = number of dates`;
the date list is strictly ascending with no duplicates and is a permutation
of the input dates; column `c` of the matrix is the Day Vector (with
`max_gap = 10`) of the `c`-th sorted date; a date with an empty sample list
contributes an all-zero column; and the empty mapping yields the
`1440 × 0` matrix together with the empty date list. -/
theorem build_daily_table_spec (daily : List (Nat × List Sample))
    (hnd : (daily.map Prod.fst).Nodup) :
    (build_daily_table daily).1.length = 1440 ∧
      (∀ row ∈ (build_daily_table daily).1,
        row.length = (build_daily_table daily).2.length) ∧
      List.Sorted (fun a b => a < b) (build_daily_table daily).2 ∧
      (build_daily_table daily).2.Perm (daily.map Prod.fst) ∧
      (∀ r, r < 1440 → ∀ c, c < (build_daily_table daily).2.length →
        ((build_daily_table daily).1.getD r []).getD c 0 =
          (build_daily_minute_series
            (lookupSamples daily ((build_daily_table daily).2.getD c 0)) 10).getD r 0) ∧
      (∀ c, c < (build_daily_table daily).2.length →
        lookupSamples daily ((build_daily_table daily).2.getD c 0) = [] →
        ∀ r, r < 1440 → ((build_daily_table daily).1.getD r []).getD c 0 = 0) ∧
      (daily = [] → (build_daily_table daily).1 = List.replicate 1440 [] ∧
        (build_daily_table daily).2 = []) := by
  have hperm : ((daily.map Prod.fst).mergeSort).Perm (daily.map Prod.fst) :=
    List.mergeSort_perm (daily.map Prod.fst) _
  have hsorted_le : List.Sorted (fun a b => a ≤ b) ((daily.map Prod.fst).mergeSort) :=
    List.sorted_mergeSort' (daily.map Prod.fst)
  have hnodup : ((daily.map Prod.fst).mergeSort).Nodup := hperm.nodup_iff.mpr hnd
  have hentry : ∀ r, r < 1440 → ∀ c, c < (build_daily_table daily).2.length →
      ((build_daily_table daily).1.getD r []).getD c 0 =
        (build_daily_minute_series
          (lookupSamples daily ((build_daily_table daily).2.getD c 0)) 10).getD r 0 := by
    intro r hr c hc
    simp only [build_daily_table] at hc ⊢
    rw [range_map_getD _ hr]
    rw [getD_map _ _ c (by simpa using hc) 0 (build_daily_minute_series [] 10)]
    rw [getD_map _ _ c (by simpa using hc) (build_daily_minute_series [] 10) 0]
  refine ⟨by simp [build_daily_table], ?_, hsorted_le.lt_of_le hnodup, hperm,
    hentry, ?_, ?_⟩
  · intro row hrow
    simp only [build_daily_table] at hrow ⊢
    obtain ⟨r, _, hrw⟩ := List.mem_map.mp hrow
    rw [← hrw]
    simp
  · intro c hc hemp r hr
    rw [hentry r hr c hc, hemp]
    exact build_nil_getD 10 r hr
  · intro hd
    subst hd
    constructor
    · simp only [build_daily_table]
      rw [List.eq_replicate_iff]
      refine ⟨by simp, ?_⟩
      intro b hb
      obtain ⟨r, _, hrw⟩ := List.mem_map.mp hb
      rw [← hrw]
      simp
    · simp [build_daily_table]

/-- Concrete two-day mapping for the C3 witness:
`{5 ↦ no samples, 3 ↦ one sample at 00:00 (hr 60)}`. -/
def exDaily : List (Nat × List Sample) := [(5, []), (3, [⟨0, 0, 60⟩])]

/-- Witness for C3 on the concrete two-day mapping `exDaily`. -/
theorem build_daily_table_spec_witness :
    ((exDaily.map Prod.fst).Nodup) ∧
      ((build_daily_table exDaily).1.length = 1440 ∧
        (∀ row ∈ (build_daily_table exDaily).1,
          row.length = (build_daily_table exDaily).2.length) ∧
        List.Sorted (fun a b => a < b) (build_daily_table exDaily).2 ∧
        (build_daily_table exDaily).2.Perm (exDaily.map Prod.fst) ∧
        (∀ r, r < 1440 → ∀ c, c < (build_daily_table exDaily).2.length →
          ((build_daily_table exDaily).1.getD r []).getD c 0 =
            (build_daily_minute_series
              (lookupSamples exDaily ((build_daily_table exDaily).2.getD c 0)) 10).getD r 0) ∧
        (∀ c, c < (build_daily_table exDaily).2.length →
          lookupSamples exDaily ((build_daily_table exDaily).2.getD c 0) = [] →
          ∀ r, r < 1440 → ((build_daily_table exDaily).1.getD r []).getD c 0 = 0) ∧
        (exDaily = [] →
          (build_daily_table exDaily).1 = List.replicate 1440 [] ∧
          (build_daily_table exDaily).2 = [])) :=
  ⟨by decide, build_daily_table_spec exDaily (by decide)⟩

/-! ## Gap interpolation (claims C1 and C8) -/

/-- Claim C1 counterexample: for the day with samples at minute 0 (value 60)
and minute 30 (value 80) and `max_gap = 10`, minutes 1–29 form an empty run
of length 29 > 10, yet minute 1 receives the interpolated value
60 + 20·(1/30) ≠ 0 — a run longer than the maximum gap is *not* left entirely
missing. -/
theorem long_gap_partial_fill_cex :
    ((List.range' 1 29).all
        (fun j => (minuteMean [⟨0, 0, 60⟩, ⟨0, 30, 80⟩] j).isNone)) = true ∧
      10 < 29 ∧
      (build_daily_minute_series [⟨0, 0, 60⟩, ⟨0, 30, 80⟩] 10).getD 1 0 ≠ 0 := by
  refine ⟨?_, by norm_num, ?_⟩ <;> with_unfolding_all decide

/-- Claim C1 (amended): for an interior empty run `[a, b]` bounded by filled
minutes `a − 1` and `b + 1`, a slot is linearly interpolated exactly when it
lies within `max_gap` slots of either end of the run, and is the sentinel `0`
otherwise.  In particular a run of length `≤ max_gap` interpolates fully,
while a longer run is only filled up to `max_gap` slots from each side — its
middle, beyond `max_gap` from both sides, stays 0.  (`max_gap ≥ 1` because
pandas rejects `limit ≤ 0`.) -/
theorem gap_fill_characterization (samples : List Sample) (L a b : Nat) (vl vr : ℚ)
    (_hL : 1 ≤ L) (ha : 1 ≤ a) (hb : b + 1 ≤ 1439)
    (hvl : minuteMean samples (a - 1) = some vl)
    (hvr : minuteMean samples (b + 1) = some vr)
    (hrun : ∀ j, a ≤ j → j ≤ b → minuteMean samples j = none)
    (i : Nat) (hai : a ≤ i) (hib : i ≤ b) :
    (build_daily_minute_series samples L).getD i 0 =
      if i - (a - 1) ≤ L ∨ b + 1 - i ≤ L then
        vl + (vr - vl) * ((i - (a - 1) : Nat) : ℚ) / (((b + 1) - (a - 1) : Nat) : ℚ)
      else 0 := by
  rw [build_getD samples L i (by omega),
    interpOne_interior (minuteMean samples) L a b vl vr ha hb hvl hvr hrun i hai hib]
  by_cases hc : i - (a - 1) ≤ L ∨ b + 1 - i ≤ L
  · rw [if_pos hc, if_pos hc]
    rfl
  · rw [if_neg hc, if_neg hc]
    rfl

/-- Witness for the amended C1: samples at minute 10 (value 60) and minute 15
(value 70), gap 11–14, `max_gap = 10`, slot 13 gets 60 + 10·(3/5) = 66 (the
spec §8 example). -/
theorem gap_fill_characterization_witness :
    minuteMean [⟨0, 10, 60⟩, ⟨0, 15, 70⟩] 10 = some 60 ∧
      minuteMean [⟨0, 10, 60⟩, ⟨0, 15, 70⟩] 15 = some 70 ∧
      (∀ j, 11 ≤ j → j ≤ 14 → minuteMean [⟨0, 10, 60⟩, ⟨0, 15, 70⟩] j = none) ∧
      (build_daily_minute_series [⟨0, 10, 60⟩, ⟨0, 15, 70⟩] 10).getD 13 0 =
        if 13 - (11 - 1) ≤ 10 ∨ 14 + 1 - 13 ≤ 10 then
          (60 : ℚ) + (70 - 60) * ((13 - (11 - 1) : Nat) : ℚ) / (((14 + 1) - (11 - 1) : Nat) : ℚ)
        else 0 := by
  refine ⟨?_, ?_, ?_, ?_⟩
  · with_unfolding_all decide
  · with_unfolding_all decide
  · intro j h1 h2
    interval_cases j <;> with_unfolding_all decide
  · exact gap_fill_characterization [⟨0, 10, 60⟩, ⟨0, 15, 70⟩] 10 11 14 60 70
      (by norm_num) (by norm_num) (by norm_num)
      (by with_unfolding_all decide) (by with_unfolding_all decide)
      (fun j h1 h2 => by interval_cases j <;> with_unfolding_all decide)
      13 (by norm_num) (by norm_num)

/-- Claim C8 counterexample: the day whose only sample is at 01:40 (minute
100, value 70) has value 70 at minute 101 as well — a one-sided flat fill up
to `max_gap` minutes, not the sentinel 0 everywhere outside slot 100. -/
theorem single_sample_flat_fill_cex :
    ([(⟨1, 40, 70⟩ : Sample)].length = 1) ∧
      minute_of_day ⟨1, 40, 70⟩ = 100 ∧
      (build_daily_minute_series [⟨1, 40, 70⟩] 10).getD 101 0 = 70 ∧
      (70 : ℚ) ≠ 0 := by
  refine ⟨rfl, rfl, ?_, by norm_num⟩
  with_unfolding_all decide

/-- The minute map of a single-sample day: its own minute carries the sample
value, every other minute is empty. -/
theorem minuteMean_single (s : Sample) (j : Nat) :
    minuteMean [s] j =
      if j = minute_of_day s then some ((s.hr : ℚ)) else none := by
  unfold minuteMean samples_to_local_minutes
  by_cases hj : j = minute_of_day s
  · rw [if_pos hj]
    subst hj
    simp [List.filter]
  · rw [if_neg hj]
    have hd : (decide (minute_of_day s = j)) = false :=
      decide_eq_false fun h => hj h.symm
    simp [List.filter, hd]

/-- Claim C8 (amended): a day with exactly one sample has that sample's value
at its own minute slot *and, flat-filled, at every slot within `max_gap`
minutes on both sides* (pandas `limit_direction="both"` extends from a single
known value in both directions); every slot farther than `max_gap` from the
sample is the sentinel 0. -/
theorem single_sample_series (s : Sample) (L : Nat) (hL : 1 ≤ L)
    (i : Nat) (hi : i < 1440) :
    (build_daily_minute_series [s] L).getD i 0 =
      if i - minute_of_day s ≤ L ∧ minute_of_day s - i ≤ L then (s.hr : ℚ)
      else 0 := by
  have hm := minute_of_day_lt s
  rw [build_getD [s] L i hi]
  rcases Nat.lt_trichotomy i (minute_of_day s) with hlt | heq | hgt
  · have h1 : interpOne (minuteMean [s]) L i =
        if (minute_of_day s - 1) + 1 - i ≤ L then some ((s.hr : ℚ)) else none := by
      apply interpOne_leading
      · omega
      · rw [minuteMean_single]
        rw [if_pos (by omega)]
      · intro j hj
        rw [minuteMean_single]
        rw [if_neg (by omega)]
      · omega
    rw [h1]
    by_cases hc : (minute_of_day s - 1) + 1 - i ≤ L
    · rw [if_pos hc, if_pos (by omega)]
      rfl
    · rw [if_neg hc, if_neg (by omega)]
      rfl
  · have harr : minuteMean [s] i = some ((s.hr : ℚ)) := by
      rw [minuteMean_single, if_pos heq]
    simp only [interpOne, harr, Option.getD_some]
    rw [if_pos (by omega)]
  · have h1 : interpOne (minuteMean [s]) L i =
        if i - ((minute_of_day s + 1) - 1) ≤ L then some ((s.hr : ℚ)) else none := by
      apply interpOne_trailing
      · omega
      · rw [minuteMean_single]
        rw [if_pos (by omega)]
      · intro j hj1 hj2
        rw [minuteMean_single]
        rw [if_neg (by omega)]
      · omega
      · omega
    rw [h1]
    by_cases hc : i - ((minute_of_day s + 1) - 1) ≤ L
    · rw [if_pos hc, if_pos (by omega)]
      rfl
    · rw [if_neg hc, if_neg (by omega)]
      rfl

/-- Witness for the amended C8 at the single sample (01:40, value 70): slot
105 is within 10 minutes, so it reads 70. -/
theorem single_sample_series_witness :
    (1 ≤ 10) ∧ (105 < 1440) ∧
      (build_daily_minute_series [(⟨1, 40, 70⟩ : Sample)] 10).getD 105 0 =
        if 105 - minute_of_day ⟨1, 40, 70⟩ ≤ 10 ∧ minute_of_day ⟨1, 40, 70⟩ - 105 ≤ 10
        then ((70 : ℤ) : ℚ) else 0 :=
  ⟨by norm_num, by norm_num,
    single_sample_series ⟨1, 40, 70⟩ 10 (by norm_num) 105 (by norm_num)⟩

/-- Witness for the amended C7 at the default 920×1440 configuration on a
concrete 1440-row table. -/
theorem hour_lines_positions_witness :
    (List.replicate 1440 ([] : List ℚ)).length = 1440 ∧
      (⟨920, 1440, true, true⟩ : RenderConfig).draw_hour_lines = true ∧
      1 ≤ (⟨920, 1440, true, true⟩ : RenderConfig).image_height ∧
      (∃ img, render_heatmap_image ⟨920, 1440, true, true⟩
          (List.replicate 1440 ([] : List ℚ)) = Except.ok img ∧
        img.hourLineYs = (hourLineRows 1440).filter
          (fun y => 0 ≤ y ∧ y < (1440 : ℤ)) ∧
        (hourLineRows 1440).length = 25 ∧
        (∀ h, h < 25 → (hourLineRows 1440).getD h 0 =
          pyRound ((h : ℚ) * (1440 : ℚ) / 24)) ∧
        (hourLineRows 1440).getD 0 0 = 0 ∧
        (hourLineRows 1440).getD 24 0 = (1440 : ℤ) ∧
        (0 : ℤ) ∈ img.hourLineYs ∧
        (∀ y ∈ img.hourLineYs, y < (1440 : ℤ))) :=
  ⟨by rw [List.length_replicate], rfl, by norm_num,
    hour_lines_positions ⟨920, 1440, true, true⟩ _ (by rw [List.length_replicate]) rfl
      (by norm_num)⟩

end HrHeatmap
